import Mathlib

namespace TaskGlitch

/-!
Shallow embedding of the task-glitch analytics/state module
(`src/hooks/useTasks.ts` together with the logic/analytics functions it
imports). JavaScript numbers stored in tasks are modelled as exact
rationals; the full JS number line (finite / NaN / ±Infinity) is modelled
by `JSNum` where the code inspects finiteness. Timestamps are modelled as
integer epoch milliseconds (the value `new Date(iso).getTime()` yields).
-/

/-- The three task priorities. -/
inductive Priority where
  | high
  | medium
  | low
deriving DecidableEq, Repr

/-- The three task statuses: Todo, In Progress, Done. -/
inductive Status where
  | todo
  | inProgress
  | done
deriving DecidableEq, Repr

/-- A stored task (the `Task` type of the repository). `createdAt` and
`completedAt` are epoch milliseconds. -/
structure Task where
  id : String
  title : String
  revenue : ℚ
  timeTaken : ℚ
  priority : Priority
  status : Status
  notes : Option String
  createdAt : ℤ
  completedAt : Option ℤ
deriving DecidableEq, Repr

/-- A JavaScript number: an exact finite rational, NaN, or a signed
infinity. -/
inductive JSNum where
  | finite (q : ℚ)
  | nan
  | posInf
  | negInf
deriving DecidableEq, Repr

/-- `Number.isFinite`. -/
def JSNum.isFinite : JSNum → Bool
  | .finite _ => true
  | _ => false

/-- The JS comparison `x <= 0` (false on NaN). -/
def JSNum.leZero : JSNum → Bool
  | .finite q => decide (q ≤ 0)
  | .negInf => true
  | _ => false

/-- JS division on numbers (sign of zero is not tracked; every case the
embedded code reaches is the finite/finite case with nonzero divisor). -/
def JSNum.div : JSNum → JSNum → JSNum
  | .finite a, .finite b =>
      if b = 0 then (if a = 0 then .nan else if 0 < a then .posInf else .negInf)
      else .finite (a / b)
  | .finite _, .posInf => .finite 0
  | .finite _, .negInf => .finite 0
  | .posInf, .finite b => if 0 ≤ b then .posInf else .negInf
  | .negInf, .finite b => if 0 ≤ b then .negInf else .posInf
  | _, _ => .nan

/-- Rounding to 2 decimal places, as `Number(x.toFixed(2))` does on an
exact value: nearest hundredth, ties toward +∞. -/
def round2 (q : ℚ) : ℚ := (Int.floor (q * 100 + 1 / 2) : ℚ) / 100

/-- `Number(x.toFixed(2))` on a JS number: finite values are rounded to 2
decimals; `NaN.toFixed` gives "NaN" and `Infinity.toFixed` gives
"Infinity", which `Number` parses back. -/
def JSNum.toFixed2 : JSNum → JSNum
  | .finite q => .finite (round2 q)
  | .nan => .nan
  | .posInf => .posInf
  | .negInf => .negInf

/-- `computeROI(revenue, timeTaken)` from `utils/logic`. -/
def computeROI (revenue timeTaken : JSNum) : Option JSNum :=
  if !revenue.isFinite then none
  else if !timeTaken.isFinite || timeTaken.leZero then none
  else some ((revenue.div timeTaken).toFixed2)

/-- `computePriorityWeight(priority)` from `utils/logic`. -/
def computePriorityWeight : Priority → ℕ
  | .high => 3
  | .medium => 2
  | .low => 1

/-- A task augmented with derived fields (`DerivedTask`): `roi` is
`number | null`, and the number it holds is always finite, so it is
modelled as `Option ℚ`. -/
structure DerivedTask extends Task where
  roi : Option ℚ
  priorityWeight : ℕ
deriving DecidableEq, Repr

/-- Projects a finite JS number back to its rational. -/
def JSNum.toRat? : JSNum → Option ℚ
  | .finite q => some q
  | _ => none

/-- `withDerived(task)` from `utils/logic`: attaches `roi` and
`priorityWeight`. -/
def withDerived (t : Task) : DerivedTask :=
  { t with
    roi := (computeROI (.finite t.revenue) (.finite t.timeTaken)).bind JSNum.toRat?
    priorityWeight := computePriorityWeight t.priority }

/-- Models `a.title.localeCompare(b.title)`: a negative, zero, or positive
number according to the string order (code-unit order in the model). -/
def localeCmp (a b : String) : ℚ :=
  if a < b then -1 else if b < a then 1 else 0

/-- The comparator passed to `Array.prototype.sort` inside `sortTasks`:
roi descending with null as -1, then priorityWeight descending, then
title ascending. -/
def taskCmp (a b : DerivedTask) : ℚ :=
  if b.roi.getD (-1) ≠ a.roi.getD (-1) then b.roi.getD (-1) - a.roi.getD (-1)
  else if b.priorityWeight ≠ a.priorityWeight then
    (b.priorityWeight : ℚ) - (a.priorityWeight : ℚ)
  else localeCmp a.title b.title

/-- `a` may come (weakly) before `b` under the comparator. -/
def taskLe (a b : DerivedTask) : Bool := decide (taskCmp a b ≤ 0)

/-- `sortTasks(tasks)` from `utils/logic`: a stable sort of a copy of the
input by the comparator. -/
def sortTasks (l : List DerivedTask) : List DerivedTask := l.mergeSort taskLe

/-- The order relation the spec describes, stated independently of the
comparator: roi descending (null ≡ -1), then priorityWeight descending,
then title ascending. -/
def specLe (a b : DerivedTask) : Prop :=
  b.roi.getD (-1) < a.roi.getD (-1) ∨
  (b.roi.getD (-1) = a.roi.getD (-1) ∧
    (b.priorityWeight < a.priorityWeight ∨
      (b.priorityWeight = a.priorityWeight ∧ a.title ≤ b.title)))

/-- The comparator-induced order coincides with the spec's order. -/
theorem taskLe_iff (a b : DerivedTask) : taskLe a b = true ↔ specLe a b := by
  simp only [taskLe, taskCmp, specLe, localeCmp, decide_eq_true_eq]
  by_cases h1 : b.roi.getD (-1) = a.roi.getD (-1)
  · simp only [h1, ne_eq, not_true_eq_false, if_false, if_neg (not_not_intro h1),
      lt_self_iff_false, false_or, true_and]
    by_cases h2 : b.priorityWeight = a.priorityWeight
    · simp only [h2, if_neg (not_not_intro h2), lt_self_iff_false, false_or, true_and]
      by_cases h3 : a.title < b.title
      · simp only [if_pos h3]
        constructor
        · intro _; exact le_of_lt h3
        · intro _; norm_num
      · by_cases h4 : b.title < a.title
        · simp only [if_neg h3, if_pos h4]
          constructor
          · intro h; norm_num at h
          · intro h; exact absurd h4 (not_lt.mpr h)
        · simp only [if_neg h3, if_neg h4]
          constructor
          · intro _; exact not_lt.mp h4
          · intro _; norm_num
    · simp only [if_pos h2]
      constructor
      · intro h
        left
        have hle : b.priorityWeight ≤ a.priorityWeight := by
          have := sub_nonpos.mp h
          exact_mod_cast this
        exact lt_of_le_of_ne hle h2
      · intro h
        rcases h with h | ⟨he, _⟩
        · have : (b.priorityWeight : ℚ) ≤ (a.priorityWeight : ℚ) := by
            exact_mod_cast le_of_lt h
          exact sub_nonpos.mpr this
        · exact absurd he h2
  · simp only [if_pos h1]
    constructor
    · intro h
      left
      exact lt_of_le_of_ne (sub_nonpos.mp h) h1
    · intro h
      rcases h with h | ⟨he, _⟩
      · exact sub_nonpos.mpr (le_of_lt h)
      · exact absurd he h1

/-- The comparator-induced order is total. -/
theorem taskLe_total (a b : DerivedTask) : taskLe a b || taskLe b a := by
  rw [Bool.or_eq_true, taskLe_iff, taskLe_iff]
  unfold specLe
  rcases lt_trichotomy (b.roi.getD (-1)) (a.roi.getD (-1)) with h | h | h
  · left; left; exact h
  · rcases Nat.lt_trichotomy b.priorityWeight a.priorityWeight with h2 | h2 | h2
    · left; right; exact ⟨h, Or.inl h2⟩
    · rcases le_total a.title b.title with h3 | h3
      · left; right; exact ⟨h, Or.inr ⟨h2, h3⟩⟩
      · right; right; exact ⟨h.symm, Or.inr ⟨h2.symm, h3⟩⟩
    · right; right; exact ⟨h.symm, Or.inl h2⟩
  · right; left; exact h

/-- The comparator-induced order is transitive. -/
theorem taskLe_trans : ∀ (a b c : DerivedTask), taskLe a b → taskLe b c → taskLe a c := by
  intro a b c h1 h2
  rw [taskLe_iff] at h1 h2 ⊢
  unfold specLe at h1 h2 ⊢
  rcases h1 with h1 | ⟨e1, h1⟩
  · rcases h2 with h2 | ⟨e2, _⟩
    · left; exact h2.trans h1
    · left; rw [e2]; exact h1
  · rcases h2 with h2 | ⟨e2, h2⟩
    · left; rw [← e1]; exact h2
    · refine Or.inr ⟨e2.trans e1, ?_⟩
      rcases h1 with h1 | ⟨p1, t1⟩
      · rcases h2 with h2 | ⟨p2, _⟩
        · left; exact h2.trans h1
        · left; rw [p2]; exact h1
      · rcases h2 with h2 | ⟨p2, t2⟩
        · left; rw [← p1]; exact h2
        · exact Or.inr ⟨p2.trans p1, t1.trans t2⟩

/-- C2: sortTasks returns a permutation of the input of equal length,
ordered by (roi descending with null as -1, priorityWeight descending,
title ascending), and applying sortTasks to its own output returns the
same list (idempotence). The embedding is pure, so the input list is
unchanged (the source copies the array before sorting). -/
theorem sortTasks_spec (l : List DerivedTask) :
    (sortTasks l).Perm l ∧ (sortTasks l).length = l.length ∧
    (sortTasks l).Pairwise specLe ∧
    sortTasks (sortTasks l) = sortTasks l := by
  refine ⟨List.mergeSort_perm l taskLe, (List.mergeSort_perm l taskLe).length_eq, ?_, ?_⟩
  · exact (List.sorted_mergeSort taskLe_trans taskLe_total l).imp
      (fun h => (taskLe_iff _ _).mp h)
  · exact List.mergeSort_of_sorted (List.sorted_mergeSort taskLe_trans taskLe_total l)

/-- The `FunnelCounts` record returned by `computeFunnel`. -/
structure FunnelCounts where
  todo : ℕ
  inProgress : ℕ
  done : ℕ
  conversionTodoToInProgress : ℚ
  conversionInProgressToDone : ℚ
deriving DecidableEq, Repr

/-- `computeFunnel(tasks)` from `utils/logic`. -/
def computeFunnel (tasks : List Task) : FunnelCounts :=
  let todo := (tasks.filter fun t => t.status == Status.todo).length
  let inProgress := (tasks.filter fun t => t.status == Status.inProgress).length
  let done := (tasks.filter fun t => t.status == Status.done).length
  let base := todo + inProgress + done
  { todo := todo
    inProgress := inProgress
    done := done
    conversionTodoToInProgress :=
      if base ≠ 0 then ((inProgress + done : ℕ) : ℚ) / (base : ℚ) else 0
    conversionInProgressToDone :=
      if inProgress ≠ 0 then (done : ℚ) / (inProgress : ℚ) else 0 }

/-- A minimal concrete task, used in concrete counterexamples. -/
def sampleTask (id : String) (st : Status) : Task :=
  { id := id, title := id, revenue := 0, timeTaken := 1, priority := .high,
    status := st, notes := none, createdAt := 0, completedAt := none }

/-- C3 amended: the first funnel ratio lies in [0,1]; the second is
nonnegative (but not bounded by 1, see the counterexample); each ratio is
0 when its denominator is 0. -/
theorem computeFunnel_spec (tasks : List Task) :
    0 ≤ (computeFunnel tasks).conversionTodoToInProgress ∧
    (computeFunnel tasks).conversionTodoToInProgress ≤ 1 ∧
    0 ≤ (computeFunnel tasks).conversionInProgressToDone ∧
    ((computeFunnel tasks).todo + (computeFunnel tasks).inProgress
        + (computeFunnel tasks).done = 0 →
      (computeFunnel tasks).conversionTodoToInProgress = 0) ∧
    ((computeFunnel tasks).inProgress = 0 →
      (computeFunnel tasks).conversionInProgressToDone = 0) := by
  simp only [computeFunnel]
  set td := (tasks.filter fun t => t.status == Status.todo).length with htd
  set ip := (tasks.filter fun t => t.status == Status.inProgress).length with hip
  set dn := (tasks.filter fun t => t.status == Status.done).length with hdn
  refine ⟨?_, ?_, ?_, ?_, ?_⟩
  · split_ifs with h
    · positivity
    · exact le_refl _
  · split_ifs with h
    · rw [div_le_one (by exact_mod_cast Nat.pos_of_ne_zero h)]
      have hle : ip + dn ≤ td + ip + dn := by omega
      exact_mod_cast hle
    · norm_num
  · split_ifs with h
    · positivity
    · exact le_refl _
  · intro h
    simp [h]
  · intro h
    simp [h]

/-- C3 witness: on the empty task list both denominators are 0 and both
ratios are 0, by `computeFunnel_spec`. -/
theorem computeFunnel_spec_witness :
    (computeFunnel []).conversionTodoToInProgress = 0 ∧
    (computeFunnel []).conversionInProgressToDone = 0 :=
  ⟨(computeFunnel_spec []).2.2.2.1 (by simp [computeFunnel]),
   (computeFunnel_spec []).2.2.2.2 (by simp [computeFunnel])⟩

/-- C3 counterexample: with two Done tasks and one In Progress task the
second ratio, Done / In Progress, equals 2, which is outside [0,1]. -/
theorem computeFunnel_ratio_counterexample :
    (computeFunnel [sampleTask "a" .done, sampleTask "b" .done,
        sampleTask "c" .inProgress]).conversionInProgressToDone = 2 ∧
    ¬ (computeFunnel [sampleTask "a" .done, sampleTask "b" .done,
        sampleTask "c" .inProgress]).conversionInProgressToDone ≤ 1 := by
  have h : (computeFunnel [sampleTask "a" .done, sampleTask "b" .done,
      sampleTask "c" .inProgress]).conversionInProgressToDone = 2 := by
    simp [computeFunnel, sampleTask, List.filter_cons]
  exact ⟨h, by rw [h]; norm_num⟩

/-- A `Partial<Task>` patch: a field that is `some` is present in the
patch object and overrides the task's field. -/
structure Patch where
  id : Option String := none
  title : Option String := none
  revenue : Option ℚ := none
  timeTaken : Option ℚ := none
  priority : Option Priority := none
  status : Option Status := none
  notes : Option (Option String) := none
  createdAt : Option ℤ := none
  completedAt : Option (Option ℤ) := none
deriving DecidableEq, Repr

/-- The `TaskFormPayload` accepted by `addTask`. -/
structure TaskFormPayload where
  id : Option String := none
  title : String
  revenue : ℚ
  timeTaken : ℚ
  priority : Priority
  status : Status
  notes : Option String := none
deriving DecidableEq, Repr

/-- The state owned by the `useTasks` hook: the task list and the pending
last-deleted slot. -/
structure StoreState where
  tasks : List Task
  lastDeleted : Option Task
deriving DecidableEq, Repr

/-- The task record built by `addTask`; `now` models
`new Date().toISOString()` and `freshId` models `crypto.randomUUID()`. -/
def mkTask (payload : TaskFormPayload) (now : ℤ) (freshId : String) : Task :=
  { id := payload.id.getD freshId
    title := payload.title
    revenue := payload.revenue
    timeTaken := if payload.timeTaken > 0 then payload.timeTaken else 1
    priority := payload.priority
    status := payload.status
    notes := payload.notes
    createdAt := now
    completedAt := if payload.status = Status.done then some now else none }

/-- `addTask` from the hook: appends the built task to the list. -/
def addTask (s : StoreState) (payload : TaskFormPayload) (now : ℤ)
    (freshId : String) : StoreState :=
  { s with tasks := s.tasks ++ [mkTask payload now freshId] }

/-- The merge `{...t, ...patch, completedAt: ...}` that `updateTask`
performs on the matching task: patch fields override, and the explicit
`completedAt` property written after the spread ignores any patched
`completedAt`, writing `now` exactly on a non-Done → Done transition. -/
def applyPatch (t : Task) (p : Patch) (now : ℤ) : Task :=
  { id := p.id.getD t.id
    title := p.title.getD t.title
    revenue := p.revenue.getD t.revenue
    timeTaken := p.timeTaken.getD t.timeTaken
    priority := p.priority.getD t.priority
    status := p.status.getD t.status
    notes := p.notes.getD t.notes
    createdAt := p.createdAt.getD t.createdAt
    completedAt :=
      if t.status ≠ Status.done ∧ p.status = some Status.done then some now
      else t.completedAt }

/-- `updateTask(id, patch)` from the hook. -/
def updateTask (s : StoreState) (id : String) (p : Patch) (now : ℤ) : StoreState :=
  { s with tasks := s.tasks.map fun t => if t.id == id then applyPatch t p now else t }

/-- `deleteTask(id)` from the hook: `setLastDeleted` receives the result
of `prev.find(...) || null`, and the list keeps the tasks whose id
differs. -/
def deleteTask (s : StoreState) (id : String) : StoreState :=
  { tasks := s.tasks.filter fun t => !(t.id == id)
    lastDeleted := s.tasks.find? fun t => t.id == id }

/-- `undoDelete()` from the hook. -/
def undoDelete (s : StoreState) : StoreState :=
  match s.lastDeleted with
  | none => s
  | some t => { tasks := s.tasks ++ [t], lastDeleted := none }

/-- `clearLastDeleted()` from the hook. -/
def clearLastDeleted (s : StoreState) : StoreState :=
  { s with lastDeleted := none }

/-- C1: for all inputs r and t, computeROI returns null exactly when r is
non-finite, t is non-finite, or t ≤ 0; otherwise it returns r / t rounded
to 2 decimal places, and the returned number is never NaN or Infinity. -/
theorem computeROI_spec (r t : JSNum) :
    (computeROI r t = none ↔
      r.isFinite = false ∨ t.isFinite = false ∨ t.leZero = true) ∧
    (∀ x, computeROI r t = some x →
      ∃ rq tq : ℚ, r = .finite rq ∧ t = .finite tq ∧ 0 < tq ∧
        x = .finite (round2 (rq / tq)) ∧ x.isFinite = true) := by
  cases r with
  | finite rq =>
    cases t with
    | finite tq =>
      by_cases h : tq ≤ 0
      · constructor
        · simp [computeROI, JSNum.isFinite, JSNum.leZero, h]
        · intro x hx
          simp [computeROI, JSNum.isFinite, JSNum.leZero, h] at hx
      · have htpos : 0 < tq := lt_of_not_le h
        have htne : tq ≠ 0 := ne_of_gt htpos
        constructor
        · simp [computeROI, JSNum.isFinite, JSNum.leZero, h]
        · intro x hx
          refine ⟨rq, tq, rfl, rfl, htpos, ?_, ?_⟩
          · simp [computeROI, JSNum.isFinite, JSNum.leZero, h, JSNum.div,
              htne, JSNum.toFixed2] at hx
            exact hx.symm
          · simp [computeROI, JSNum.isFinite, JSNum.leZero, h, JSNum.div,
              htne, JSNum.toFixed2] at hx
            subst hx
            rfl
    | nan =>
      refine ⟨by simp [computeROI, JSNum.isFinite], ?_⟩
      intro x hx
      simp [computeROI, JSNum.isFinite] at hx
    | posInf =>
      refine ⟨by simp [computeROI, JSNum.isFinite], ?_⟩
      intro x hx
      simp [computeROI, JSNum.isFinite] at hx
    | negInf =>
      refine ⟨by simp [computeROI, JSNum.isFinite], ?_⟩
      intro x hx
      simp [computeROI, JSNum.isFinite] at hx
  | nan =>
    refine ⟨by simp [computeROI, JSNum.isFinite], ?_⟩
    intro x hx
    simp [computeROI, JSNum.isFinite] at hx
  | posInf =>
    refine ⟨by simp [computeROI, JSNum.isFinite], ?_⟩
    intro x hx
    simp [computeROI, JSNum.isFinite] at hx
  | negInf =>
    refine ⟨by simp [computeROI, JSNum.isFinite], ?_⟩
    intro x hx
    simp [computeROI, JSNum.isFinite] at hx

/-- C1 witness: computeROI(100, 2) = 50.00, exercising the positive branch
of `computeROI_spec` at a concrete input. -/
theorem computeROI_spec_witness :
    ∃ rq tq : ℚ, JSNum.finite 100 = JSNum.finite rq ∧
      JSNum.finite 2 = JSNum.finite tq ∧ 0 < tq ∧
      JSNum.finite 50 = JSNum.finite (round2 (rq / tq)) ∧
      (JSNum.finite 50).isFinite = true :=
  (computeROI_spec (.finite 100) (.finite 2)).2 (.finite 50) (by
    simp [computeROI, JSNum.isFinite, JSNum.leZero, JSNum.div, JSNum.toFixed2, round2]
    norm_num)

/-- Concrete payload used in concrete scenarios: task "A" with revenue
100, timeTaken 2, created in status Done. -/
def payloadDoneA : TaskFormPayload :=
  { id := some "a", title := "A", revenue := 100, timeTaken := 2,
    priority := Priority.high, status := Status.done }

/-- Undo with a pending task appends it and clears the slot. -/
theorem undoDelete_of_some {s : StoreState} {t : Task} (h : s.lastDeleted = some t) :
    undoDelete s = { tasks := s.tasks ++ [t], lastDeleted := none } := by
  cases s with
  | mk tasks last => cases last <;> simp_all [undoDelete]

/-- Undo with no pending task is the identity. -/
theorem undoDelete_of_none {s : StoreState} (h : s.lastDeleted = none) :
    undoDelete s = s := by
  cases s with
  | mk tasks last => cases last <;> simp_all [undoDelete]

/-- C4 amended: deleting an id that is absent leaves the task list
unchanged but writes null into the last-deleted slot (clearing any prior
pending value, so it is not a full no-op); deleting a present id captures
the first matching task into the slot and removes every task with that
id. -/
theorem deleteTask_spec (s : StoreState) (id : String) :
    ((∀ t ∈ s.tasks, t.id ≠ id) →
      (deleteTask s id).tasks = s.tasks ∧ (deleteTask s id).lastDeleted = none) ∧
    ((∃ t ∈ s.tasks, t.id = id) →
      (∃ t ∈ s.tasks, t.id = id ∧ (deleteTask s id).lastDeleted = some t) ∧
      ∀ u ∈ (deleteTask s id).tasks, u.id ≠ id) := by
  constructor
  · intro h
    constructor
    · simp only [deleteTask]
      apply List.filter_eq_self.mpr
      intro a ha
      simpa using h a ha
    · simp only [deleteTask]
      rw [List.find?_eq_none]
      intro x hx
      simpa using h x hx
  · intro h
    constructor
    · obtain ⟨t, ht, hid⟩ := h
      have hsome : (s.tasks.find? fun u => u.id == id).isSome := by
        rw [List.find?_isSome]
        exact ⟨t, ht, by simpa using hid⟩
      obtain ⟨u, hu⟩ := Option.isSome_iff_exists.mp hsome
      refine ⟨u, List.mem_of_find?_eq_some hu, ?_, hu⟩
      simpa using List.find?_some hu
    · intro u hu
      simp only [deleteTask, List.mem_filter] at hu
      simpa using hu.2

/-- C4 witness: deleting the present id "a" captures the task and removes
it, by `deleteTask_spec`. -/
theorem deleteTask_spec_witness :
    (∃ t ∈ (⟨[sampleTask "a" Status.todo], none⟩ : StoreState).tasks, t.id = "a" ∧
      (deleteTask ⟨[sampleTask "a" Status.todo], none⟩ "a").lastDeleted = some t) ∧
    ∀ u ∈ (deleteTask ⟨[sampleTask "a" Status.todo], none⟩ "a").tasks, u.id ≠ "a" :=
  (deleteTask_spec ⟨[sampleTask "a" Status.todo], none⟩ "a").2
    ⟨sampleTask "a" Status.todo, by simp [sampleTask]⟩

/-- C4 counterexample: with a pending last-deleted task, deleting an id
absent from the (empty) list clears the pending slot, so the slot is not
unchanged. -/
theorem deleteTask_absent_counterexample :
    (deleteTask ⟨[], some (sampleTask "a" Status.todo)⟩ "x").lastDeleted = none ∧
    (⟨[], some (sampleTask "a" Status.todo)⟩ : StoreState).lastDeleted ≠ none := by
  exact ⟨rfl, by simp⟩

/-- C5 amended: addTask clamps a nonpositive supplied timeTaken to 1, so
adding preserves the invariant that every stored task has timeTaken > 0;
updateTask performs no clamping (see the counterexample), so the
invariant is not preserved by every store mutation. -/
theorem addTask_timeTaken_pos (s : StoreState) (p : TaskFormPayload) (now : ℤ)
    (fid : String) (hinv : ∀ t ∈ s.tasks, 0 < t.timeTaken) :
    ∀ t ∈ (addTask s p now fid).tasks, 0 < t.timeTaken := by
  intro t ht
  simp only [addTask, List.mem_append, List.mem_singleton] at ht
  rcases ht with ht | ht
  · exact hinv t ht
  · subst ht
    simp only [mkTask]
    split_ifs with h
    · exact h
    · norm_num

/-- A concrete payload with nonpositive timeTaken, used as a witness
input. -/
def payloadNegB : TaskFormPayload :=
  { title := "B", revenue := 0, timeTaken := -3,
    priority := Priority.low, status := Status.todo }

/-- C5 witness: the task added from a payload with timeTaken = -3 has
positive (clamped) timeTaken, by `addTask_timeTaken_pos`. -/
theorem addTask_timeTaken_pos_witness :
    0 < (mkTask payloadNegB 0 "b").timeTaken :=
  addTask_timeTaken_pos ⟨[], none⟩ payloadNegB 0 "b" (by intro t ht; simp at ht)
    (mkTask payloadNegB 0 "b") (by simp [addTask])

/-- C5 counterexample: updateTask stores a patched timeTaken = -5 without
clamping, so the claimed invariant fails after an update. -/
theorem updateTask_no_clamp_counterexample :
    ((updateTask ⟨[sampleTask "a" Status.todo], none⟩ "a"
        { timeTaken := some (-5) } 0).tasks.map Task.timeTaken) = [(-5 : ℚ)] ∧
    ¬ ∀ t ∈ (updateTask ⟨[sampleTask "a" Status.todo], none⟩ "a"
        { timeTaken := some (-5) } 0).tasks, 0 < t.timeTaken := by
  constructor
  · simp [updateTask, applyPatch, sampleTask]
  · intro hall
    have h := hall (applyPatch (sampleTask "a" Status.todo) { timeTaken := some (-5) } 0)
      (by simp [updateTask, sampleTask])
    norm_num [applyPatch, sampleTask] at h

/-- C6 amended: an update preserves completedAt unless it transitions the
task from non-Done into Done, in which case completedAt is set to the
current time — including when Done is re-entered after having been left,
which re-sets the value; in particular completedAt is never overwritten
while the task is already Done, never cleared once set, and a
patch-supplied completedAt is ignored. -/
theorem applyPatch_completedAt_spec (t : Task) (p : Patch) (now : ℤ) :
    (t.status = Status.done → (applyPatch t p now).completedAt = t.completedAt) ∧
    (p.status ≠ some Status.done → (applyPatch t p now).completedAt = t.completedAt) ∧
    (t.completedAt ≠ none → (applyPatch t p now).completedAt ≠ none) ∧
    (t.status ≠ Status.done → p.status = some Status.done →
      (applyPatch t p now).completedAt = some now) := by
  refine ⟨?_, ?_, ?_, ?_⟩
  · intro h
    simp [applyPatch, h]
  · intro h
    simp [applyPatch, h]
  · intro h
    simp only [applyPatch]
    split_ifs with hc
    · simp
    · exact h
  · intro h1 h2
    simp [applyPatch, h1, h2]

/-- C6 witness: patching a task that is already Done leaves completedAt
unchanged, by `applyPatch_completedAt_spec`. -/
theorem applyPatch_completedAt_spec_witness :
    (applyPatch (sampleTask "d" Status.done) { status := some Status.done } 7).completedAt
      = (sampleTask "d" Status.done).completedAt :=
  (applyPatch_completedAt_spec (sampleTask "d" Status.done)
    { status := some Status.done } 7).1 rfl

/-- C6 counterexample: Done → Todo → Done re-sets completedAt (0 at
creation, then 2000 after re-entering Done), so completedAt is not set
exactly once nor preserved by every subsequent update. -/
theorem completedAt_rewrite_counterexample :
    ((addTask ⟨[], none⟩ payloadDoneA 0 "a").tasks.map Task.completedAt
      = [some 0]) ∧
    ((updateTask (updateTask (addTask ⟨[], none⟩ payloadDoneA 0 "a") "a"
        { status := some Status.todo } 1000) "a"
        { status := some Status.done } 2000).tasks.map Task.completedAt
      = [some 2000]) ∧
    some (2000 : ℤ) ≠ some (0 : ℤ) := by
  refine ⟨?_, ?_, by simp⟩
  · simp [addTask, mkTask, payloadDoneA]
  · simp [addTask, mkTask, payloadDoneA, updateTask, applyPatch]

/-- C9: adding a task with a fresh id, deleting that id, then undoing
restores the list (the task is re-appended at the end) and clears the
slot; undo with no pending deletion is a no-op. -/
theorem delete_undo_roundtrip (s : StoreState) (p : TaskFormPayload) (now : ℤ)
    (fid : String)
    (hfresh : ∀ t ∈ s.tasks, t.id ≠ (mkTask p now fid).id) :
    (addTask s p now fid).tasks = s.tasks ++ [mkTask p now fid] ∧
    (deleteTask (addTask s p now fid) (mkTask p now fid).id).tasks = s.tasks ∧
    (deleteTask (addTask s p now fid) (mkTask p now fid).id).lastDeleted
      = some (mkTask p now fid) ∧
    (undoDelete (deleteTask (addTask s p now fid) (mkTask p now fid).id)).tasks
      = (addTask s p now fid).tasks ∧
    (undoDelete (deleteTask (addTask s p now fid) (mkTask p now fid).id)).lastDeleted
      = none ∧
    ∀ s' : StoreState, s'.lastDeleted = none → undoDelete s' = s' := by
  have htasks : (deleteTask (addTask s p now fid) (mkTask p now fid).id).tasks
      = s.tasks := by
    simp only [deleteTask, addTask, List.filter_append]
    rw [List.filter_eq_self.mpr (by intro a ha; simpa using hfresh a ha)]
    simp
  have hlast : (deleteTask (addTask s p now fid) (mkTask p now fid).id).lastDeleted
      = some (mkTask p now fid) := by
    simp only [deleteTask, addTask, List.find?_append]
    rw [List.find?_eq_none.mpr (by intro x hx; simpa using hfresh x hx)]
    simp
  refine ⟨rfl, htasks, hlast, ?_, ?_, ?_⟩
  · rw [undoDelete_of_some hlast, htasks]
    rfl
  · rw [undoDelete_of_some hlast]
  · intro s' h
    exact undoDelete_of_none h

/-- C9 witness: the add / delete / undo round trip on the empty store
with the concrete payload, by `delete_undo_roundtrip`. -/
theorem delete_undo_roundtrip_witness :
    (addTask ⟨[], none⟩ payloadDoneA 0 "z").tasks
      = [] ++ [mkTask payloadDoneA 0 "z"] ∧
    (deleteTask (addTask ⟨[], none⟩ payloadDoneA 0 "z")
      (mkTask payloadDoneA 0 "z").id).tasks = [] ∧
    (deleteTask (addTask ⟨[], none⟩ payloadDoneA 0 "z")
      (mkTask payloadDoneA 0 "z").id).lastDeleted = some (mkTask payloadDoneA 0 "z") ∧
    (undoDelete (deleteTask (addTask ⟨[], none⟩ payloadDoneA 0 "z")
      (mkTask payloadDoneA 0 "z").id)).tasks
      = (addTask ⟨[], none⟩ payloadDoneA 0 "z").tasks ∧
    (undoDelete (deleteTask (addTask ⟨[], none⟩ payloadDoneA 0 "z")
      (mkTask payloadDoneA 0 "z").id)).lastDeleted = none ∧
    ∀ s' : StoreState, s'.lastDeleted = none → undoDelete s' = s' :=
  delete_undo_roundtrip ⟨[], none⟩ payloadDoneA 0 "z" (by intro t ht; simp at ht)

/-- C10: updateTask preserves the length and relative order of the task
list and the pending slot; every task whose id differs from the target is
left completely unchanged, and only the matching task is replaced. -/
theorem updateTask_frame (s : StoreState) (id : String) (p : Patch) (now : ℤ) :
    (updateTask s id p now).tasks.length = s.tasks.length ∧
    (updateTask s id p now).lastDeleted = s.lastDeleted ∧
    ∀ (i : ℕ) (t : Task), s.tasks[i]? = some t →
      (t.id ≠ id → (updateTask s id p now).tasks[i]? = some t) ∧
      (t.id = id → (updateTask s id p now).tasks[i]? = some (applyPatch t p now)) := by
  refine ⟨by simp [updateTask], rfl, ?_⟩
  intro i t ht
  constructor
  · intro hne
    simp [updateTask, ht, hne]
  · intro heq
    simp [updateTask, ht, heq]

/-- C10 witness: updating id "a" in a one-task store replaces the task at
index 0 by its patched version, by `updateTask_frame`. -/
theorem updateTask_frame_witness :
    (updateTask ⟨[sampleTask "a" Status.todo], none⟩ "a"
        { timeTaken := some 9 } 0).tasks[0]?
      = some (applyPatch (sampleTask "a" Status.todo) { timeTaken := some 9 } 0) :=
  ((updateTask_frame ⟨[sampleTask "a" Status.todo], none⟩ "a"
      { timeTaken := some 9 } 0).2.2 0 (sampleTask "a" Status.todo) rfl).2 rfl


/-- Milliseconds per day. -/
def dayMs : ℤ := 24 * 3600 * 1000

/-- `Date.prototype.getUTCDay` as a function of days since the epoch:
1970-01-01 was a Thursday (4). -/
def getUTCDayOfDays (days : ℤ) : ℤ := (days + 4) % 7

/-- The Gregorian calendar year containing the given day number (days
since 1970-01-01): the year-extraction part of the standard
civil-from-days algorithm, which is what `getUTCFullYear` returns. -/
def yearOfDays (z : ℤ) : ℤ :=
  let z' := z + 719468
  let era := z' / 146097
  let doe := z' - era * 146097
  let yoe := (doe - doe / 1460 + doe / 36524 - doe / 146096) / 365
  let y := yoe + era * 400
  let doy := doe - (365 * yoe + yoe / 4 - yoe / 100)
  let mp := (5 * doy + 2) / 153
  let m := if mp < 10 then mp + 3 else mp - 9
  if m ≤ 2 then y + 1 else y

/-- `Date.UTC(y, 0, 4)` in days since the epoch: January 4 of year y, by
the standard days-from-civil algorithm (January shifts the year by -1 and
has shifted-month 10, so its day-of-shifted-year offset is 306). -/
def jan4OfYear (y : ℤ) : ℤ :=
  let y' := y - 1
  let era := y' / 400
  let yoe := y' - era * 400
  let doy := (153 * 10 + 2) / 5 + 4 - 1
  let doe := yoe * 365 + yoe / 4 - yoe / 100 + doy
  era * 146097 + doe - 719468

/-- `getUTCFullYear` of an epoch-milliseconds value. -/
def getUTCFullYear (ms : ℤ) : ℤ := yearOfDays (ms / dayMs)

/-- `getWeekNumber(d)` from `utils/logic`: truncates to the civil day,
shifts to the Thursday of that (Monday-based) week, and returns
`1 + Math.round(diff / weekMs)` where diff is the millisecond distance to
January 4 of the Thursday's year. On the integer day difference d the
rounded quotient `⌊d/7 + 1/2⌋` is computed exactly as `(2*d+7)/14`
(floor division; the quotient is never exactly halfway, so the source's
float evaluation agrees). -/
def getWeekNumber (ms : ℤ) : ℤ :=
  let target := ms / dayMs
  let dayNr := (getUTCDayOfDays target + 6) % 7
  let target2 := target - dayNr + 3
  let firstThursday := jan4OfYear (yearOfDays target2)
  1 + (2 * (target2 - firstThursday) + 7) / 14

/-- The bucket key `${d.getUTCFullYear()}-W${getWeekNumber(d)}` built by
`computeThroughputByWeek`. -/
def weekKey (ms : ℤ) : String :=
  toString (getUTCFullYear ms) ++ "-W" ++ toString (getWeekNumber ms)

/-- One output row of `computeThroughputByWeek`. -/
structure WeekAgg where
  week : String
  count : ℕ
  revenue : ℚ
deriving DecidableEq, Repr

/-- String ≤ as a Bool, the order `localeCompare`-based ascending sorts
induce in the model. -/
def strLe (a b : String) : Bool := decide (a ≤ b)

/-- The comparator `(a, b) => a[0].localeCompare(b[0])` on map entries. -/
def weekRowLe (a b : WeekAgg) : Bool := strLe a.week b.week

/-- Insertion-ordered map update, as a JS `Map` behaves: an existing key
is updated in place, a new key is appended at the end. -/
def bumpWeek (key : String) (rev : ℚ) : List WeekAgg → List WeekAgg
  | [] => [⟨key, 1, rev⟩]
  | e :: rest =>
      if e.week = key then ⟨e.week, e.count + 1, e.revenue + rev⟩ :: rest
      else e :: bumpWeek key rev rest

/-- The body of the `forEach` in `computeThroughputByWeek`: tasks without
a completedAt are skipped, others bump their week's bucket. -/
def throughputStep (m : List WeekAgg) (t : Task) : List WeekAgg :=
  match t.completedAt with
  | none => m
  | some ms => bumpWeek (weekKey ms) t.revenue m

/-- `computeThroughputByWeek(tasks)` from `utils/logic`. -/
def computeThroughputByWeek (tasks : List Task) : List WeekAgg :=
  (tasks.foldl throughputStep []).mergeSort weekRowLe

/-- Sorting a two-element list with the stable merge sort. -/
theorem mergeSort_pair {α : Type} (le : α → α → Bool) (a b : α) :
    [a, b].mergeSort le = if le a b then [a, b] else [b, a] := by
  rw [List.mergeSort]
  simp [List.splitInTwo, List.splitAt, List.splitAt.go, List.merge]

/-- `weekRowLe` is transitive. -/
theorem weekRowLe_trans : ∀ a b c : WeekAgg,
    weekRowLe a b → weekRowLe b c → weekRowLe a c := by
  intro a b c h1 h2
  simp only [weekRowLe, strLe, decide_eq_true_eq] at h1 h2 ⊢
  exact le_trans h1 h2

/-- `weekRowLe` is total. -/
theorem weekRowLe_total : ∀ a b : WeekAgg, weekRowLe a b || weekRowLe b a := by
  intro a b
  simp only [weekRowLe, strLe]
  rcases le_total a.week b.week with h | h <;> simp [h]

/-- A bump adds exactly one to the total count. -/
theorem bumpWeek_count_sum (key : String) (rev : ℚ) (m : List WeekAgg) :
    ((bumpWeek key rev m).map WeekAgg.count).sum = (m.map WeekAgg.count).sum + 1 := by
  induction m with
  | nil => simp [bumpWeek]
  | cons e rest ih =>
    simp only [bumpWeek]
    split_ifs with h
    · simp [List.map_cons]
      omega
    · simp only [List.map_cons, List.sum_cons, ih]
      omega

/-- A bump adds exactly the task's revenue to the total revenue. -/
theorem bumpWeek_revenue_sum (key : String) (rev : ℚ) (m : List WeekAgg) :
    ((bumpWeek key rev m).map WeekAgg.revenue).sum
      = (m.map WeekAgg.revenue).sum + rev := by
  induction m with
  | nil => simp [bumpWeek]
  | cons e rest ih =>
    simp only [bumpWeek]
    split_ifs with h
    · simp only [List.map_cons, List.sum_cons]
      ring
    · simp only [List.map_cons, List.sum_cons, ih]
      ring

/-- The fold counts exactly the completed tasks. -/
theorem foldl_throughput_count (tasks : List Task) :
    ∀ m : List WeekAgg,
      ((tasks.foldl throughputStep m).map WeekAgg.count).sum
        = (m.map WeekAgg.count).sum
          + (tasks.filter fun t => t.completedAt.isSome).length := by
  induction tasks with
  | nil => intro m; simp
  | cons t rest ih =>
    intro m
    simp only [List.foldl_cons]
    rw [ih]
    cases h : t.completedAt with
    | none => simp [throughputStep, h, List.filter_cons]
    | some ms =>
      simp only [throughputStep, h, bumpWeek_count_sum, List.filter_cons,
        Option.isSome_some]
      simp
      omega

/-- The fold accumulates exactly the completed tasks' revenue. -/
theorem foldl_throughput_revenue (tasks : List Task) :
    ∀ m : List WeekAgg,
      ((tasks.foldl throughputStep m).map WeekAgg.revenue).sum
        = (m.map WeekAgg.revenue).sum
          + (((tasks.filter fun t => t.completedAt.isSome).map Task.revenue).sum) := by
  induction tasks with
  | nil => intro m; simp
  | cons t rest ih =>
    intro m
    simp only [List.foldl_cons]
    rw [ih]
    cases h : t.completedAt with
    | none => simp [throughputStep, h, List.filter_cons]
    | some ms =>
      simp only [throughputStep, h, bumpWeek_revenue_sum, List.filter_cons,
        Option.isSome_some]
      simp
      ring

/-- C7 amended: computeThroughputByWeek buckets completed tasks by the
key `{UTC calendar year of completedAt}-W{Thursday-rule week number}`,
aggregates count and revenue per key, and returns the rows in ascending
lexical order of the key. That lexical order is not chronological in
general — week numbers are not zero-padded and the year is the calendar
year rather than the ISO week-year — see the counterexample. -/
theorem computeThroughputByWeek_spec (tasks : List Task) :
    (computeThroughputByWeek tasks).Pairwise (fun a b => a.week ≤ b.week) ∧
    ((computeThroughputByWeek tasks).map WeekAgg.count).sum
      = (tasks.filter fun t => t.completedAt.isSome).length ∧
    ((computeThroughputByWeek tasks).map WeekAgg.revenue).sum
      = ((tasks.filter fun t => t.completedAt.isSome).map Task.revenue).sum := by
  refine ⟨?_, ?_, ?_⟩
  · exact (List.sorted_mergeSort weekRowLe_trans weekRowLe_total
      (tasks.foldl throughputStep [])).imp
      (by intro a b hab; simpa [weekRowLe, strLe] using hab)
  · have hperm := (List.mergeSort_perm (tasks.foldl throughputStep []) weekRowLe).map
      WeekAgg.count
    rw [computeThroughputByWeek, hperm.sum_eq, foldl_throughput_count]
    simp
  · have hperm := (List.mergeSort_perm (tasks.foldl throughputStep []) weekRowLe).map
      WeekAgg.revenue
    rw [computeThroughputByWeek, hperm.sum_eq, foldl_throughput_revenue]
    simp

/-- Task completed on 2024-02-26 (ISO week 9 of 2024). -/
def taskW9 : Task :=
  { id := "w9", title := "w9", revenue := 10, timeTaken := 1,
    priority := Priority.high, status := Status.done, notes := none,
    createdAt := 0, completedAt := some 1708905600000 }

/-- Task completed on 2024-03-04 (ISO week 10 of 2024, one week later). -/
def taskW10 : Task :=
  { id := "w10", title := "w10", revenue := 20, timeTaken := 1,
    priority := Priority.high, status := Status.done, notes := none,
    createdAt := 0, completedAt := some 1709510400000 }

/-- The two concrete week keys. -/
theorem weekKey_w9 : weekKey 1708905600000 = "2024-W9" := by decide

/-- The week-10 key of the later completion. -/
theorem weekKey_w10 : weekKey 1709510400000 = "2024-W10" := by decide

/-- "2024-W10" sorts lexically before "2024-W9". -/
theorem weekKey_lex : strLe "2024-W9" "2024-W10" = false := by
  simp only [strLe, decide_eq_false_iff_not]
  simp only [String.le_iff_toList_le, String.lt_iff_toList_lt]
  decide

/-- C7 counterexample: a task completed in week 9 of 2024 and one
completed a week later in week 10 produce output rows ["2024-W10",
"2024-W9"] — the earlier week comes second, so ascending lexical order of
the keys is not chronological. -/
theorem throughput_not_chronological_counterexample :
    computeThroughputByWeek [taskW9, taskW10]
      = [⟨"2024-W10", 1, 20⟩, ⟨"2024-W9", 1, 10⟩] ∧
    (1708905600000 : ℤ) < 1709510400000 := by
  constructor
  · rw [computeThroughputByWeek]
    simp only [List.foldl_cons, List.foldl_nil, throughputStep, taskW9, taskW10,
      weekKey_w9, weekKey_w10, bumpWeek]
    rw [if_neg (by decide)]
    rw [mergeSort_pair]
    rw [show weekRowLe ⟨"2024-W9", 1, 10⟩ ⟨"2024-W10", 1, 20⟩ = false from weekKey_lex]
    simp
  · decide


/-- `daysBetween(aISO, bISO)` from `utils/logic`:
`Math.max(0, Math.round((b - a) / dayMs))` on the parsed millisecond
values; the rounded quotient `⌊(b-a)/dayMs + 1/2⌋` is computed exactly as
`(2*(b-a) + dayMs) / (2*dayMs)` (floor division; ties round up exactly as
`Math.round` does). -/
def daysBetween (a b : ℤ) : ℤ := max 0 ((2 * (b - a) + dayMs) / (2 * dayMs))

/-- Integer ≤ as a Bool: the numeric ascending comparator
`(a, b) => a - b`. -/
def intLe (a b : ℤ) : Bool := decide (a ≤ b)

/-- The day counts pushed into `groups[p]` by the `forEach` in
`computeVelocityByPriority`: completed tasks of priority `p`, in list
order. -/
def velocityGroup (tasks : List Task) (p : Priority) : List ℤ :=
  tasks.filterMap fun t =>
    match t.completedAt with
    | some c => if t.priority = p then some (daysBetween t.createdAt c) else none
    | none => none

/-- The per-priority record computed by `computeVelocityByPriority`. -/
structure Velocity where
  avgDays : ℚ
  medianDays : ℚ
deriving DecidableEq, Repr

/-- `computeVelocityByPriority(tasks)[p]` from `utils/logic`: the group is
sorted ascending, the mean is sum/length and the median is
`arr[Math.floor(arr.length / 2)]` (0 for an empty group; `getD` with
default 0 expresses both the guard and the in-bounds access). -/
def computeVelocityByPriority (tasks : List Task) (p : Priority) : Velocity :=
  let arr := (velocityGroup tasks p).mergeSort intLe
  { avgDays := if arr.length ≠ 0 then (arr.sum : ℚ) / (arr.length : ℚ) else 0
    medianDays := ((arr.getD (arr.length / 2) 0 : ℤ) : ℚ) }

/-- The statistical median described by the spec's word "median": the
middle element of the sorted list for odd length, the mean of the two
middle elements for even length, 0 for the empty list. -/
def medianSpec (l : List ℤ) : ℚ :=
  let arr := l.mergeSort intLe
  if arr.length = 0 then 0
  else if arr.length % 2 = 1 then ((arr.getD (arr.length / 2) 0 : ℤ) : ℚ)
  else (((arr.getD (arr.length / 2 - 1) 0 : ℤ) : ℚ)
    + ((arr.getD (arr.length / 2) 0 : ℤ) : ℚ)) / 2

/-- `intLe` is transitive. -/
theorem intLe_trans : ∀ a b c : ℤ, intLe a b → intLe b c → intLe a c := by
  intro a b c h1 h2
  simp only [intLe, decide_eq_true_eq] at h1 h2 ⊢
  omega

/-- `intLe` is total. -/
theorem intLe_total : ∀ a b : ℤ, intLe a b || intLe b a := by
  intro a b
  simp only [intLe]
  rcases le_total a b with h | h <;> simp [h]

/-- Day counts are never negative. -/
theorem daysBetween_nonneg (a b : ℤ) : 0 ≤ daysBetween a b := le_max_left 0 _

/-- C8 amended: computeVelocityByPriority considers exactly the completed
tasks of each priority, turns each into `daysBetween(createdAt,
completedAt)` (whole days, rounded, floored at 0, hence nonnegative),
reports the mean of the group (0 when empty), and reports as "median" the
element at index ⌊n/2⌋ of the ascending-sorted group — the upper middle
element, which differs from the statistical median for even group sizes
(see the counterexample). -/
theorem computeVelocityByPriority_spec (tasks : List Task) (p : Priority) :
    (velocityGroup tasks p
      = (tasks.filter fun t => t.completedAt.isSome && t.priority == p).map
          (fun t => daysBetween t.createdAt (t.completedAt.getD 0))) ∧
    ((velocityGroup tasks p).length = 0 →
      computeVelocityByPriority tasks p = ⟨0, 0⟩) ∧
    ((velocityGroup tasks p).length ≠ 0 →
      (computeVelocityByPriority tasks p).avgDays
        = ((velocityGroup tasks p).sum : ℚ) / ((velocityGroup tasks p).length : ℚ)) ∧
    (∀ d ∈ velocityGroup tasks p, 0 ≤ d) ∧
    (∃ arr : List ℤ, arr.Perm (velocityGroup tasks p) ∧ arr.Pairwise (· ≤ ·) ∧
      (computeVelocityByPriority tasks p).medianDays
        = ((arr.getD (arr.length / 2) 0 : ℤ) : ℚ)) := by
  refine ⟨?_, ?_, ?_, ?_, ?_⟩
  · induction tasks with
    | nil => simp [velocityGroup]
    | cons t rest ih =>
      cases h : t.completedAt with
      | none => simp [velocityGroup, List.filterMap_cons, List.filter_cons, h,
          ← ih, velocityGroup]
      | some c =>
        by_cases hp : t.priority = p
        · simp [velocityGroup, List.filterMap_cons, List.filter_cons, h, hp,
            ← ih, velocityGroup]
        · simp [velocityGroup, List.filterMap_cons, List.filter_cons, h, hp,
            ← ih, velocityGroup]
  · intro h
    have hnil : velocityGroup tasks p = [] := List.length_eq_zero.mp h
    simp [computeVelocityByPriority, hnil]
  · intro h
    have hperm := List.mergeSort_perm (velocityGroup tasks p) intLe
    simp only [computeVelocityByPriority]
    rw [if_pos]
    · rw [hperm.sum_eq, hperm.length_eq]
    · rw [List.length_mergeSort]
      exact h
  · intro d hd
    simp only [velocityGroup, List.mem_filterMap] at hd
    obtain ⟨t, _, ht⟩ := hd
    cases h : t.completedAt with
    | none => rw [h] at ht; simp at ht
    | some c =>
      rw [h] at ht
      by_cases hp : t.priority = p
      · simp [hp] at ht
        rw [← ht]
        exact daysBetween_nonneg _ _
      · simp [hp] at ht
  · refine ⟨(velocityGroup tasks p).mergeSort intLe,
      List.mergeSort_perm (velocityGroup tasks p) intLe, ?_, rfl⟩
    exact (List.sorted_mergeSort intLe_trans intLe_total
      (velocityGroup tasks p)).imp
      (by intro a b hab; simpa [intLe] using hab)

/-- Completed High-priority task taking 0 days. -/
def taskV0 : Task :=
  { id := "v0", title := "v0", revenue := 0, timeTaken := 1,
    priority := Priority.high, status := Status.done, notes := none,
    createdAt := 0, completedAt := some 0 }

/-- Completed High-priority task taking 10 days. -/
def taskV10 : Task :=
  { id := "v10", title := "v10", revenue := 0, timeTaken := 1,
    priority := Priority.high, status := Status.done, notes := none,
    createdAt := 0, completedAt := some 864000000 }

/-- The concrete High-priority day-count group is {0, 10}. -/
theorem velocityGroup_example :
    velocityGroup [taskV0, taskV10] Priority.high = [0, 10] := by decide

/-- C8 witness: on the concrete group {0, 10} the reported mean is the
arithmetic mean of the group, by `computeVelocityByPriority_spec`. -/
theorem computeVelocityByPriority_spec_witness :
    (computeVelocityByPriority [taskV0, taskV10] Priority.high).avgDays
      = ((velocityGroup [taskV0, taskV10] Priority.high).sum : ℚ)
        / ((velocityGroup [taskV0, taskV10] Priority.high).length : ℚ) :=
  (computeVelocityByPriority_spec [taskV0, taskV10] Priority.high).2.2.1
    (by rw [velocityGroup_example]; simp)

/-- C8 counterexample: for the even-sized group {0, 10} the code reports
arr[⌊2/2⌋] = arr[1] = 10 as the median, while the statistical median is
(0 + 10) / 2 = 5. -/
theorem velocity_median_counterexample :
    (computeVelocityByPriority [taskV0, taskV10] Priority.high).medianDays = 10 ∧
    medianSpec (velocityGroup [taskV0, taskV10] Priority.high) = 5 ∧
    (10 : ℚ) ≠ 5 := by
  have harr : ([0, 10] : List ℤ).mergeSort intLe = [0, 10] := by
    rw [mergeSort_pair]
    simp [intLe]
  refine ⟨?_, ?_, by norm_num⟩
  · simp only [computeVelocityByPriority, velocityGroup_example, harr]
    norm_num
  · simp only [medianSpec, velocityGroup_example, harr]
    norm_num


end TaskGlitch
